import Mathlib

/-!
# Verification of the Codebase Genius documentation generator

A shallow embedding of the core of the repository:

* `BE/gen_docs.py`   – tree walker, language classifier, readme extractor,
  Python/JS import-edge extractors, mermaid renderer, markdown writer;
* `BE/py/parser.py`  – `build_ccg`, the per-file symbol/call extractor;
* `BE/py/simple_fs.py` – `write_text`, the temp-file-then-rename writer;
* `BE/gen_bridge.py` – `run_gen`, the chdir/try/except/finally wrapper.

Files are modelled as records of root-relative directory components, a file
name and a text content.  Python regular expressions used by the source are
embedded as explicit character-list matchers with identical semantics on the
character classes involved (the `\s`, `\w`, `[A-Za-z0-9_.]` classes are the
ASCII sets; the source scans source-code identifiers, which are ASCII).
-/

namespace CodebaseGenius

/-! ## Character classes and small string helpers -/

/-- Python regex `\s` (ASCII part): space, tab, newline, carriage return,
form feed and vertical tab. -/
def isWs (c : Char) : Bool :=
  c == ' ' || c == '\t' || c == '\n' || c == '\r' || c == Char.ofNat 11 || c == Char.ofNat 12

/-- Python regex `[a-zA-Z_]`, the first character of an identifier. -/
def isIdentStart (c : Char) : Bool := c.isAlpha || c == '_'

/-- Python regex `\w` (ASCII part): letters, digits and underscore. -/
def isWordChar (c : Char) : Bool := c.isAlphanum || c == '_'

/-- Characters allowed in the module group `[A-Za-z0-9_\.]` of the import
regexes of `gen_docs.py`. -/
def isModChar (c : Char) : Bool := c.isAlphanum || c == '_' || c == '.'

/-- Python `str.strip()`: remove leading and trailing whitespace. -/
def pyStrip (s : String) : String :=
  String.mk (((s.data.dropWhile isWs).reverse.dropWhile isWs).reverse)

/-- Split on a separator character, accumulating the current chunk. -/
def splitCharGo (sep : Char) : List Char → List Char → List String
  | [], acc => [String.mk acc.reverse]
  | c :: rest, acc =>
    if c == sep then String.mk acc.reverse :: splitCharGo sep rest []
    else splitCharGo sep rest (c :: acc)

/-- Python `str.splitlines()` for line-feed separated text (the text the
source scans).  On an empty text or after a final line terminator this
yields an extra empty line, which every consumer in the source treats
like a blank line. -/
def splitLines (s : String) : List String := splitCharGo '\n' s.data []

/-- Whether `needle` is an initial run of `hay`. -/
def leadEq : List Char → List Char → Bool
  | [], _ => true
  | _ :: _, [] => false
  | c :: cs, h :: hs => c == h && leadEq cs hs

/-- Python `s.startswith(t)`. -/
def strStarts (s t : String) : Bool := leadEq t.data s.data

/-- Whether `needle` occurs inside `hay` (used to state that the rendered
artifact does not contain a given phrase). -/
def subScan : List Char → List Char → Bool
  | n, [] => leadEq n []
  | n, h :: hs => leadEq n (h :: hs) || subScan n hs

/-- Substring test on strings. -/
def strContainsSub (hay needle : String) : Bool := subScan needle.data hay.data

/-- Index of the last `.` in a character list (Python `str.rfind('.')`,
but `none` instead of `-1`). -/
def lastDot : List Char → Option Nat
  | [] => none
  | c :: rest =>
    match lastDot rest with
    | some i => some (i + 1)
    | none => if c == '.' then some 0 else none

/-- `pathlib.PurePath.suffix` of a file *name*: the part from the last dot,
provided that dot is neither the first nor the last character. -/
def pySuffix (name : String) : String :=
  match lastDot name.data with
  | none => ""
  | some i =>
    if 0 < i ∧ i < name.data.length - 1 then String.mk (name.data.drop i) else ""

/-- `pathlib.PurePath.stem` of a file *name*: the name with `pySuffix`
removed. -/
def pyStem (name : String) : String :=
  match lastDot name.data with
  | none => name
  | some i =>
    if 0 < i ∧ i < name.data.length - 1 then String.mk (name.data.take i) else name

/-! ## File records and the tree walker (`walk_files`, gen_docs.py:37-42) -/

/-- One discovered file: the names of the directories between the scan root
and the file (outermost first), the file name, and the decoded text. -/
structure FileRec where
  dirs : List String
  name : String
  content : String
deriving DecidableEq, Repr

/-- `IGNORES` (gen_docs.py:19-23). -/
def IGNORES : List String :=
  [".git", ".hg", ".svn", ".idea", ".vscode", ".venv", "venv",
   "__pycache__", "node_modules", "dist", "build", ".pytest_cache",
   ".mypy_cache", ".ruff_cache", ".tox", ".cache", "target", "out", "bin"]

/-- The pruning test of `walk_files`: a directory is skipped when its name
is in `IGNORES` or starts with a dot. -/
def ignoredDir (n : String) : Bool := n ∈ IGNORES || strStarts n "."

/-- A directory tree: the input of the walk. -/
inductive Entry where
  | file (name content : String)
  | dir (name : String) (children : List Entry)

/-- `walk_files` (gen_docs.py:37-42): recursive descent from the root's
entry list, pruning ignored directories (`dirs[:] = [x for x in dirs if x
not in IGNORES and not x.startswith(".")]`).  `os.walk` yields the files of
a directory before descending; the interleaving used here yields the same
multiset of files, and every consumer sorts before use. -/
def walk_files : List Entry → List FileRec
  | [] => []
  | .file n c :: rest => { dirs := [], name := n, content := c } :: walk_files rest
  | .dir n cs :: rest =>
    (if ignoredDir n then [] else
      (walk_files cs).map fun f => { f with dirs := n :: f.dirs }) ++ walk_files rest

/-! ## Language classification (`LANG_EXTS`, `find_by_lang`, gen_docs.py:25-54) -/

/-- `LANG_EXTS` (gen_docs.py:25-32), in its Python insertion order. -/
def LANG_EXTS : List (String × List String) :=
  [("Python", [".py"]),
   ("JavaScript/TypeScript", [".js", ".mjs", ".cjs", ".jsx", ".ts", ".tsx"]),
   ("Java", [".java"]),
   ("Go", [".go"]),
   ("Rust", [".rs"]),
   ("C/C++", [".c", ".h", ".cc", ".cpp", ".hpp", ".cxx", ".hxx"])]

/-- The language names, in report order. -/
def langNames : List String := LANG_EXTS.map Prod.fst

/-- First entry of the table whose extension set contains the suffix: the
inner `for lang, exts in LANG_EXTS.items(): ... break` of `find_by_lang`. -/
def langLookup : List (String × List String) → String → Option String
  | [], _ => none
  | (lang, exts) :: rest, s => if s ∈ exts then some lang else langLookup rest s

/-- `str.lower()` on one character (the suffixes compared against the
table are ASCII). -/
def asciiLower (c : Char) : Char :=
  if c.toNat ≥ 65 ∧ c.toNat ≤ 90 then Char.ofNat (c.toNat + 32) else c

/-- `str.lower()` (ASCII). -/
def strLower (s : String) : String := String.mk (s.data.map asciiLower)

/-- Classification of one file name: `p.suffix.lower() in exts`, first
matching table entry wins (gen_docs.py:48-51). -/
def classifyFile (name : String) : Option String :=
  langLookup LANG_EXTS (strLower (pySuffix name))

/-- The sort key Python uses for `Path` values: the tuple of path
components, compared lexicographically. -/
def pathKey (f : FileRec) : List String := f.dirs ++ [f.name]

/-- The comparison used by `buckets[k].sort()` (gen_docs.py:52-53). -/
def fileLe (a b : FileRec) : Prop := pathKey a ≤ pathKey b

instance : DecidableRel fileLe := fun a b =>
  inferInstanceAs (Decidable (pathKey a ≤ pathKey b))

instance : IsTotal FileRec fileLe := ⟨fun a b => le_total (pathKey a) (pathKey b)⟩

instance : IsTrans FileRec fileLe := ⟨fun _ _ _ h1 h2 => le_trans h1 h2⟩

/-- `buckets[k].sort()`: a stable sort by `pathKey` (Python's list sort is
stable; so is insertion sort, so on any input they produce the same list). -/
def sortFiles (l : List FileRec) : List FileRec := l.insertionSort fileLe

/-- `find_by_lang` (gen_docs.py:45-54) as a bucket map: a file lands in the
bucket of the first table entry matching its lowered suffix (the loop with
`break`), in walk order, and each bucket is then sorted. -/
def find_by_lang (files : List FileRec) : String → List FileRec := fun lang =>
  sortFiles (files.filter fun f => classifyFile f.name == some lang)

/-! ## Readme extractor (`read_readme`, gen_docs.py:57-67) -/

instance {α β : Type} [DecidableEq α] [DecidableEq β] :
    DecidableEq (Except α β) := fun a b =>
  match a, b with
  | .ok x, .ok y =>
    if h : x = y then isTrue (by rw [h]) else isFalse (by simp [h])
  | .error x, .error y =>
    if h : x = y then isTrue (by rw [h]) else isFalse (by simp [h])
  | .ok _, .error _ => isFalse (by simp)
  | .error _, .ok _ => isFalse (by simp)

/-- `README_FILES` (gen_docs.py:34), the candidate priority list. -/
def README_FILES : List String :=
  ["README.md", "Readme.md", "readme.md", "README", "README.rst"]

/-- Association lookup in a directory listing, modelling
`(root / name).exists()` on the root's direct entries (`none`: no such
entry). -/
def dirLookup {α : Type} (entries : List (String × α)) (k : String) : Option α :=
  (entries.find? fun kv => kv.1 == k).map Prod.snd

/-- `re.sub(r"^#+\s*", "", clean)`: drop leading hash marks and the
whitespace after them (a no-op when the line does not start with `#`). -/
def stripHeading (s : String) : String :=
  if strStarts s "#" then
    String.mk ((s.data.dropWhile (· == '#')).dropWhile isWs)
  else s

/-- The inner loop of `read_readme`: the first non-blank line, stripped of
heading markup; `none` when every line is blank. -/
def firstNonBlank (lines : List String) : Option String :=
  lines.findSome? fun line =>
    let clean := pyStrip line
    if clean == "" then none else some (stripHeading clean)

/-- The candidate loop of `read_readme` (gen_docs.py:58-66).  Each root
entry carries the outcome of `f.read_text(encoding="utf-8",
errors="ignore")`: the decoded text, or the message of the `OSError` the
read raises (an unreadable file, or a directory bearing a candidate name
— `errors="ignore"` only suppresses decode errors, not I/O errors).  A
missing candidate is skipped; an existing candidate whose read fails
raises, and nothing in `read_readme` (or in `main`) catches the
exception, so it aborts the scan; a readable candidate returns its first
non-blank line with heading markup stripped, and when all its lines are
blank the Python loop falls through to the *next* candidate. -/
def readReadmeGo (entries : List (String × Except String String)) :
    List String → Except String (Option String)
  | [] => .ok none
  | name :: rest =>
    match dirLookup entries name with
    | none => readReadmeGo entries rest
    | some (.error e) => .error e
    | some (.ok txt) =>
      match firstNonBlank (splitLines txt) with
      | some s => .ok (some s)
      | none => readReadmeGo entries rest

/-- `read_readme` (gen_docs.py:57-67).  Returns `.ok none` (Python
`None`, not a placeholder string) when no candidate yields a line, and
`.error` when an existing candidate cannot be read. -/
def read_readme (rootEntries : List (String × Except String String)) :
    Except String (Option String) :=
  readReadmeGo rootEntries README_FILES

/-! ## Mermaid slugs (`slug_for_mermaid`, gen_docs.py:70-74) -/

/-- Python regex character class `[^A-Za-z0-9]` is the complement of this. -/
def isAsciiAlnum (c : Char) : Bool := c.isAlphanum

/-- `re.sub(r"[^A-Za-z0-9]+", "_", rel)`: every maximal run of
non-alphanumeric characters becomes a single underscore.  The boolean
records whether the previous character belonged to such a run (so only the
first character of a run emits the underscore). -/
def collapseRuns : List Char → Bool → List Char
  | [], _ => []
  | c :: rest, inRun =>
    if isAsciiAlnum c then c :: collapseRuns rest false
    else if inRun then collapseRuns rest true
    else '_' :: collapseRuns rest true

/-- `str.strip("_")`: drop underscores from both ends. -/
def stripUnders (l : List Char) : List Char :=
  ((l.dropWhile (· == '_')).reverse.dropWhile (· == '_')).reverse

/-- The path of a file relative to the scan root, rendered with `/`
(`p.relative_to(root).as_posix()`). -/
def relPathStr (f : FileRec) : String :=
  String.intercalate "/" (f.dirs ++ [f.name])

/-- `slug_for_mermaid` (gen_docs.py:70-74).  The `root` argument of the
source only serves to make the path relative; `FileRec` is already
root-relative. -/
def slug_for_mermaid (f : FileRec) : String :=
  String.mk (stripUnders (collapseRuns (relPathStr f).data false))

/-! ## Mermaid rendering (`mermaid_graph`, gen_docs.py:138-146) -/

/-- Python `"\n".join(lines)`. -/
def joinNL : List String → String
  | [] => ""
  | [a] => a
  | a :: rest => a ++ "\n" ++ joinNL rest

/-- `mermaid_graph` (gen_docs.py:138-146): a fenced block with one
`a --> b` line per edge, or a placeholder comment when the edge list is
empty.  (The placeholder branch is reachable only from callers that pass
an empty list; see `write_markdown_lines`.) -/
def mermaid_graph (edges : List (String × String)) (title : String) : String :=
  if edges = [] then
    "```mermaid\ngraph LR\n%% No edges detected for " ++ title ++ "\n```\n"
  else
    joinNL
      (["```mermaid", "graph LR"] ++
        (edges.map fun e => "  " ++ e.1 ++ " --> " ++ e.2) ++
        ["```", ""])

/-! ## The markdown report (`write_markdown`, gen_docs.py:149-191) -/

/-- The `lines` list built by `write_markdown` before joining
(gen_docs.py:157-188).  `rootResolved` is the display form of
`root.resolve()`; `buckets` is the bucket map. -/
def write_markdown_lines (rootResolved : String) (buckets : String → List FileRec)
    (readme_line : Option String)
    (py_edges js_edges : List (String × String)) : List String :=
  ["# Codebase Genius — Docs\n",
   "Scanned root: `" ++ rootResolved ++ "`\n",
   "## Summary\n"] ++
  (langNames.map fun lang => "- " ++ lang ++ ": " ++ toString (buckets lang).length) ++
  [""] ++
  (match readme_line with
   | some r => ["## README summary (first non-empty line)\n", "> " ++ r ++ "\n"]
   | none => []) ++
  (if py_edges = [] then [] else
    ["## Python import graph (Mermaid)\n", mermaid_graph py_edges "Python"]) ++
  (if js_edges = [] then [] else
    ["## JS/TS import graph (Mermaid)\n", mermaid_graph js_edges "JS/TS"]) ++
  (langNames.flatMap fun lang =>
    ["## " ++ lang ++ " files"] ++
    (if buckets lang = [] then ["_None_"]
     else (buckets lang).map fun p => "- `" ++ relPathStr p ++ "`") ++
    [""])

/-- The artifact text: `"\n".join(lines)` (gen_docs.py:191). -/
def write_markdown_render (rootResolved : String) (buckets : String → List FileRec)
    (readme_line : Option String)
    (py_edges js_edges : List (String × String)) : String :=
  joinNL (write_markdown_lines rootResolved buckets readme_line py_edges js_edges)

/-! ## Python import edges (`py_import_edges`, gen_docs.py:77-104) -/

/-- Exact literal match: consume `kw` from the front of the input. -/
def dropLead : List Char → List Char → Option (List Char)
  | [], rest => some rest
  | _ :: _, [] => none
  | k :: ks, c :: rest => if c == k then dropLead ks rest else none

/-- `re.match` for `^\s*import\s+([A-Za-z0-9_\.]+)` (gen_docs.py:87): the
captured module group, or `none`.  The module characters and whitespace are
disjoint, so the greedy group is the maximal run. -/
def matchImport1 (line : List Char) : Option String :=
  match dropLead "import".data (line.dropWhile isWs) with
  | none => none
  | some rest =>
    match rest with
    | c :: rest2 =>
      if isWs c then
        match (rest2.dropWhile isWs).takeWhile isModChar with
        | [] => none
        | grp => some (String.mk grp)
      else none
    | [] => none

/-- `re.match` for `^\s*from\s+([A-Za-z0-9_\.]+)\s+import\s+`
(gen_docs.py:88): the captured module group, or `none`. -/
def matchImport2 (line : List Char) : Option String :=
  match dropLead "from".data (line.dropWhile isWs) with
  | none => none
  | some rest =>
    match rest with
    | c :: rest2 =>
      if isWs c then
        match (rest2.dropWhile isWs).takeWhile isModChar with
        | [] => none
        | grp =>
          let afterGrp := (rest2.dropWhile isWs).dropWhile isModChar
          match afterGrp with
          | c2 :: rest3 =>
            if isWs c2 then
              match dropLead "import".data (rest3.dropWhile isWs) with
              | none => none
              | some rest4 =>
                match rest4 with
                | c3 :: _ => if isWs c3 then some (String.mk grp) else none
                | [] => none
            else none
          | [] => none
      else none
    | [] => none

/-- `imp_re1.match(line) or imp_re2.match(line)`, then
`m.group(1).split(".")[0]` (gen_docs.py:96-99). -/
def pyImportHead (line : String) : Option String :=
  match matchImport1 line.data with
  | some m => some (String.mk (m.data.takeWhile (· ≠ '.')))
  | none =>
    match matchImport2 line.data with
    | some m => some (String.mk (m.data.takeWhile (· ≠ '.')))
    | none => none

/-- Insertion into an association list with override, modelling Python dict
assignment (a later binding for the same key wins). -/
def alistInsert (m : List (String × FileRec)) (k : String) (v : FileRec) :
    List (String × FileRec) :=
  match m with
  | [] => [(k, v)]
  | kv :: rest => if kv.1 == k then (k, v) :: rest else kv :: alistInsert rest k v

/-- Association lookup, modelling `mod in modules` / `modules[mod]`. -/
def alistGet (m : List (String × FileRec)) (k : String) : Option FileRec :=
  match m with
  | [] => none
  | kv :: rest => if kv.1 == k then some kv.2 else alistGet rest k

/-- `modules = {p.stem: p for p in files}` (gen_docs.py:83-85): dict
comprehension, last occurrence of a stem wins. -/
def modulesOf (files : List FileRec) : List (String × FileRec) :=
  files.foldl (fun m p => alistInsert m (pyStem p.name) p) []

/-- `edges.add(e)` on a `set`, keeping first-insertion order (the order is
irrelevant: the result is sorted). -/
def setInsert (s : List (String × String)) (e : String × String) :
    List (String × String) :=
  if e ∈ s then s else s ++ [e]

/-- `sorted(...)` on pairs of strings: lexicographic tuple comparison. -/
def edgeLe (a b : String × String) : Prop :=
  a.1 < b.1 ∨ (a.1 = b.1 ∧ a.2 ≤ b.2)

instance : DecidableRel edgeLe := fun a b =>
  inferInstanceAs (Decidable (a.1 < b.1 ∨ (a.1 = b.1 ∧ a.2 ≤ b.2)))

instance : IsTotal (String × String) edgeLe :=
  ⟨fun a b => by
    rcases lt_trichotomy a.1 b.1 with h | h | h
    · exact Or.inl (Or.inl h)
    · rcases le_total a.2 b.2 with h2 | h2
      · exact Or.inl (Or.inr ⟨h, h2⟩)
      · exact Or.inr (Or.inr ⟨h.symm, h2⟩)
    · exact Or.inr (Or.inl h)⟩

instance : IsTrans (String × String) edgeLe :=
  ⟨fun a b c h1 h2 => by
    rcases h1 with h1 | ⟨e1, l1⟩
    · rcases h2 with h2 | ⟨e2, l2⟩
      · exact Or.inl (h1.trans h2)
      · exact Or.inl (e2 ▸ h1)
    · rcases h2 with h2 | ⟨e2, l2⟩
      · exact Or.inl (e1 ▸ h2)
      · exact Or.inr ⟨e1.trans e2, l1.trans l2⟩⟩

/-- `sorted(edges)` (gen_docs.py:104). -/
def sortEdges (l : List (String × String)) : List (String × String) :=
  l.insertionSort edgeLe

/-- The per-line step of `py_import_edges` (gen_docs.py:95-103): match
an import line, resolve the module head against the stem dict, skip
self-edges, and add to the edge set. -/
def pyLineStep (modules : List (String × FileRec)) (src : String)
    (acc : List (String × String)) (line : String) : List (String × String) :=
  match pyImportHead line with
  | none => acc
  | some mod =>
    match alistGet modules mod with
    | none => acc
    | some q =>
      if src ≠ slug_for_mermaid q then setInsert acc (src, slug_for_mermaid q)
      else acc

/-- `py_import_edges` (gen_docs.py:77-104).  File contents are available in
`FileRec` (the `try/except` around `read_text` only skips unreadable
files, which the model's input never contains). -/
def py_import_edges (files : List FileRec) : List (String × String) :=
  let modules := modulesOf files
  sortEdges <| files.foldl (fun acc p =>
    (splitLines p.content).foldl (pyLineStep modules (slug_for_mermaid p)) acc) []

/-! ## JS/TS import edges (`js_import_edges`, gen_docs.py:107-135) -/

/-- A quote character, `["']` in the source regexes. -/
def isQuote (c : Char) : Bool := c == '"' || c == Char.ofNat 39

/-- The lazy group `(.+?)["']`: the shortest non-empty run of characters
followed by a quote; returns the group.  `none` when no later quote
exists. -/
def lazyToQuote : List Char → Option String
  | [] => none
  | c :: rest =>
    match rest with
    | [] => none
    | c2 :: rest2 =>
      if isQuote c2 then some (String.mk [c])
      else (lazyToQuote (c2 :: rest2)).map fun s => String.mk (c :: s.data)

/-- `from\s+["'](.+?)["']`, tried at one position. -/
def tryFromAt (cs : List Char) : Option String :=
  match dropLead "from".data cs with
  | none => none
  | some rest =>
    match rest with
    | c :: rest2 =>
      if isWs c then
        match rest2.dropWhile isWs with
        | q :: rest3 => if isQuote q then lazyToQuote rest3 else none
        | [] => none
      else none
    | [] => none

/-- The lazy `.*?from\s+["'](.+?)["']` tail: try `tryFromAt` at each
position left to right (regex backtracking order). -/
def scanFrom : List Char → Option String
  | [] => none
  | c :: rest =>
    match tryFromAt (c :: rest) with
    | some s => some s
    | none => scanFrom rest

/-- `re.match` for `^\s*import\s+.*?from\s+["'](.+?)["']`
(gen_docs.py:116): the captured quoted target. -/
def matchJsImport (line : List Char) : Option String :=
  match dropLead "import".data (line.dropWhile isWs) with
  | none => none
  | some rest =>
    match rest with
    | c :: rest2 => if isWs c then scanFrom (rest2.dropWhile isWs) else none
    | [] => none

/-- The lazy group of `require\(["\'](.+?)["\']\)`: shortest non-empty run
followed by a quote and a closing parenthesis. -/
def lazyToQuoteParen : List Char → Option String
  | [] => none
  | c :: rest =>
    match rest with
    | q :: p :: rest2 =>
      if isQuote q && p == ')' then some (String.mk [c])
      else (lazyToQuoteParen (q :: p :: rest2)).map fun s => String.mk (c :: s.data)
    | _ => none

/-- `require\(["\'](.+?)["\']\)` tried at one position. -/
def tryRequireAt (cs : List Char) : Option String :=
  match dropLead "require(".data cs with
  | none => none
  | some rest =>
    match rest with
    | q :: rest2 => if isQuote q then lazyToQuoteParen rest2 else none
    | [] => none

/-- `require_re.search(line)` (gen_docs.py:115): try every start position
left to right. -/
def scanRequire : List Char → Option String
  | [] => none
  | c :: rest =>
    match tryRequireAt (c :: rest) with
    | some s => some s
    | none => scanRequire rest

/-- `import_re.match(line) or require_re.search(line)` (gen_docs.py:125). -/
def jsLineTarget (line : String) : Option String :=
  match matchJsImport line.data with
  | some t => some t
  | none => scanRequire line.data

/-- `pathlib` name of a target string: components are split on `/`, empty
and `.` components are dropped, the name is the last component. -/
def jsTargetName (target : String) : String :=
  ((splitCharGo '/' target.data []).filter fun c => c ≠ "" ∧ c ≠ ".").getLastD ""

/-- `Path(target).stem` (gen_docs.py:130). -/
def jsTargetStem (target : String) : String := pyStem (jsTargetName target)

/-- `basenames = {f.stem: f for f in files}` (gen_docs.py:117). -/
def basenamesOf (files : List FileRec) : List (String × FileRec) := modulesOf files

/-- The per-line step of `js_import_edges` (gen_docs.py:124-134). -/
def jsLineStep (basenames : List (String × FileRec)) (src : String)
    (acc : List (String × String)) (line : String) : List (String × String) :=
  match jsLineTarget line with
  | none => acc
  | some target =>
    match alistGet basenames (jsTargetStem target) with
    | none => acc
    | some q =>
      if src ≠ slug_for_mermaid q then setInsert acc (src, slug_for_mermaid q)
      else acc

/-- `js_import_edges` (gen_docs.py:107-135). -/
def js_import_edges (files : List FileRec) : List (String × String) :=
  let basenames := basenamesOf files
  sortEdges <| files.foldl (fun acc p =>
    (splitLines p.content).foldl (jsLineStep basenames (slug_for_mermaid p)) acc) []

/-! ## The symbol/call extractor (`build_ccg`, parser.py:18-46) -/

/-- One attempt of the multiline-anchored declaration regexes
`^\s*def\s+([a-zA-Z_]\w*)\s*\(` and `^\s*class\s+([a-zA-Z_]\w*)\s*(\(|:)`
at a line-start position: keyword `kw`, then at least one whitespace
character (which, under `re.M`, may include newlines), the captured
identifier, optional whitespace, and a terminator accepted by `isTerm`.
Returns the identifier and the remaining input after the terminator.
Whitespace never begins the keyword, an identifier or a terminator, so the
greedy classes need no backtracking. -/
def matchDeclAt (kw : List Char) (isTerm : Char → Bool) (cs : List Char) :
    Option (String × List Char) :=
  match dropLead kw (cs.dropWhile isWs) with
  | none => none
  | some rest1 =>
    match rest1 with
    | [] => none
    | c :: rest2 =>
      if isWs c then
        match rest2.dropWhile isWs with
        | [] => none
        | c2 :: rest4 =>
          if isIdentStart c2 then
            match (rest4.dropWhile isWordChar).dropWhile isWs with
            | [] => none
            | t :: rest6 =>
              if isTerm t then
                some (String.mk (c2 :: rest4.takeWhile isWordChar), rest6)
              else none
          else none
      else none

/-- `re.findall` for a multiline-anchored declaration regex: scan the text
left to right; at every line start try `matchDeclAt`; on success capture
the identifier and resume after the match (non-overlapping matches:
the consumed region is skipped character by character while the counter is
positive, during which no match is attempted), else advance one character.
`atStart` records whether the current position starts a line (`re.M`
semantics of `^`); a successful match always consumes at least the keyword,
so the skip counter reproduces exactly the resume position. -/
def scanDecls (kw : List Char) (isTerm : Char → Bool) :
    List Char → Bool → Nat → List String
  | [], _, _ => []
  | c :: rest, _, Nat.succ k => scanDecls kw isTerm rest (c == '\n') k
  | c :: rest, atStart, 0 =>
    if atStart then
      match matchDeclAt kw isTerm (c :: rest) with
      | some (n, restAfter) =>
        n :: scanDecls kw isTerm rest (c == '\n')
          ((c :: rest).length - restAfter.length - 1)
      | none => scanDecls kw isTerm rest (c == '\n') 0
    else scanDecls kw isTerm rest (c == '\n') 0

/-- Metadata accumulated by `build_ccg` (parser.py:25). -/
structure CcgMeta where
  files_analyzed : Nat
  functions : Nat
  classes : Nat
deriving DecidableEq, Repr

/-- The graph accumulated by `build_ccg`: `networkx` keeps nodes and edges
in insertion order and ignores re-insertion of an existing key. -/
structure Ccg where
  nodes : List String
  edges : List (String × String)
  meta : CcgMeta
deriving DecidableEq, Repr

/-- `g.add_node`: idempotent insertion preserving first-insertion order. -/
def addNode (ns : List String) (n : String) : List String :=
  if n ∈ ns then ns else ns ++ [n]

/-- The first callee for which `re.search(rf'\\b{callee}\\s*\\(', text)`
is evaluated (parser.py:42-44): iterating `for caller in funcs: for callee
in funcs:`, the first pair with `caller != callee`. -/
def firstBadCallee (funcs : List String) : Option String :=
  funcs.findSome? fun caller => funcs.find? fun callee => callee != caller

/-- The message of the `re.error` raised when compiling the pattern
`rf'\\b{callee}\\s*\\('`.  In a raw f-string `\\` is two characters, so
the pattern text is `\` `\` `b` callee `\` `\` `s` `*` `\` `\` `(`: the
doubled backslashes are escaped-backslash literals and the final `(` opens
a group that is never closed, at pattern position `9 + len(callee)`. -/
def reErrorMsg (callee : String) : String :=
  "missing ), unterminated subpattern at position " ++ toString (9 + callee.length)

/-- Processing of one file by `build_ccg` (parser.py:27-45): collect
`def`/`class` declarations, add nodes and counts, then run the call pass,
which raises `re.error` at the first distinct caller/callee pair because
its pattern never compiles. -/
def ccgFileStep (g : Ccg) (text : String) : Except String Ccg :=
  let funcs := scanDecls "def".data (· == '(') text.data true 0
  let clss := scanDecls "class".data (fun c => c == '(' || c == ':') text.data true 0
  let nodes1 := funcs.foldl (fun ns f => addNode ns ("func::" ++ f)) g.nodes
  let nodes2 := clss.foldl (fun ns c => addNode ns ("class::" ++ c)) nodes1
  let g1 : Ccg :=
    { nodes := nodes2,
      edges := g.edges,
      meta := { files_analyzed := g.meta.files_analyzed + 1,
                functions := g.meta.functions + funcs.length,
                classes := g.meta.classes + clss.length } }
  match firstBadCallee funcs with
  | some callee => .error (reErrorMsg callee)
  | none => .ok g1

/-- `build_ccg` (parser.py:18-46) on the `.py` files found under the
source root, as (path-irrelevant) text contents in `rglob` order.  The
tree-sitter parse of each file (parser.py:28-29) is dead state: every
symbol and edge decision is made by the regexes on the decoded text. -/
def build_ccg : List String → Ccg → Except String Ccg
  | [], g => .ok g
  | text :: rest, g =>
    match ccgFileStep g text with
    | .error e => .error e
    | .ok g1 => build_ccg rest g1

/-- The initial empty graph (parser.py:24-25). -/
def ccgInit : Ccg := { nodes := [], edges := [], meta := ⟨0, 0, 0⟩ }

/-! ## A file-system model for the write paths

`FS` maps paths (strings) to file contents.  A plain `Path.write_text`
opens the target with mode `w` — truncating it — and then writes; a crash
after `k` characters leaves the target holding a prefix of the new
content.  `Path.replace` is an atomic rename. -/

/-- The observable file system: an association list path ↦ content. -/
abbrev FS := List (String × String)

/-- Content at a path. -/
def fsGet (fs : FS) (p : String) : Option String :=
  (fs.find? fun kv => kv.1 == p).map Prod.snd

/-- Create or overwrite a path. -/
def fsSet (fs : FS) (p v : String) : FS :=
  match fs with
  | [] => [(p, v)]
  | kv :: rest => if kv.1 == p then (p, v) :: rest else kv :: fsSet rest p v

/-- Remove a path. -/
def fsDel (fs : FS) (p : String) : FS :=
  match fs with
  | [] => []
  | kv :: rest => if kv.1 == p then rest else kv :: fsDel rest p

/-- How far a single in-place write got before the process stopped. -/
inductive WriteStep where
  | completed
  | crashed (k : Nat)
deriving DecidableEq, Repr

/-- `Path.write_text` (used at gen_docs.py:191): open-with-truncate, then
write.  A crash after `k` characters leaves `content.take k` at the
target — the previous content is already gone. -/
def path_write_text (fs : FS) (p content : String) : WriteStep → FS
  | .completed => fsSet fs p content
  | .crashed k => fsSet fs p (String.mk (content.data.take k))

/-- `Path.replace` (simple_fs.py:27): atomic rename of `src` onto `dst`. -/
def pathReplace (fs : FS) (src dst : String) : FS :=
  match fsGet fs src with
  | none => fs
  | some v => fsSet (fsDel fs src) dst v

/-- Where a run of `simple_fs.write_text` stopped. -/
inductive AtomStep where
  | completed
  | crashedTmp (k : Nat)
  | crashedBeforeReplace
deriving DecidableEq, Repr

/-- `write_text` (simple_fs.py:21-27): write the whole content to
`path + ".tmp"` (`with_suffix(path.suffix + ".tmp")` appends `.tmp` to the
full name), then atomically rename the temp file onto the target.  The
`mkdir(parents=True, exist_ok=True)` call has no observable effect in this
path-map model. -/
def write_text (fs : FS) (p content : String) : AtomStep → FS
  | .completed => pathReplace (fsSet fs (p ++ ".tmp") content) (p ++ ".tmp") p
  | .crashedTmp k => fsSet fs (p ++ ".tmp") (String.mk (content.data.take k))
  | .crashedBeforeReplace => fsSet fs (p ++ ".tmp") content

/-- The write performed by `write_markdown` (gen_docs.py:190-191): a direct
`out_md.write_text` of the rendered artifact — no temp file, no rename. -/
def write_markdown_fs (fs : FS) (rootResolved : String)
    (buckets : String → List FileRec) (readme_line : Option String)
    (py_edges js_edges : List (String × String)) (out_md : String)
    (step : WriteStep) : FS :=
  path_write_text fs out_md
    (write_markdown_render rootResolved buckets readme_line py_edges js_edges) step

/-! ## The full pipeline of `main` (gen_docs.py:194-208) -/

/-- `main` up to the artifact text: classify the walked listing, read the
readme from the root's direct entries, extract edges for the Python and
JS/TS buckets when non-empty (`if buckets[...]:`) and render.  The
`outputs/docs.md` write itself is `write_markdown_fs`. -/
def gen_artifact (rootResolved : String) (listing : List FileRec)
    (rootEntries : List (String × String)) : String :=
  let buckets := find_by_lang listing
  -- A listing of decoded texts only contains successful reads, so the
  -- `.error` branch is unreachable here; on a failing read `main` would
  -- propagate the exception and produce no artifact at all.
  let readme_line := match read_readme
      (rootEntries.map fun kv => (kv.1, Except.ok kv.2)) with
    | .ok r => r
    | .error _ => none
  let py_edges := if buckets "Python" = [] then [] else py_import_edges (buckets "Python")
  let js_edges := if buckets "JavaScript/TypeScript" = [] then [] else
    js_import_edges (buckets "JavaScript/TypeScript")
  write_markdown_render rootResolved buckets readme_line py_edges js_edges

/-! ## `run_gen` (gen_bridge.py:6-30) -/

/-- The result dict `run_gen` returns: either the success dict
(`ok=True` with root, docs path, existence and size) or the failure dict
(`ok=False` with the exception message). -/
inductive RunDict where
  | success (root docs_path : String) (out_exists : Bool) (size_bytes : Nat)
  | failure (error root : String)
deriving DecidableEq, Repr

/-- `ok` field of the dict. -/
def RunDict.ok : RunDict → Bool
  | .success _ _ _ _ => true
  | .failure _ _ => false

/-- The outside world `run_gen` runs against: whether `os.chdir(root_path)`
raises, whether `gen_docs.main()` raises (and with what message), and what
`out_md.exists()` / `stat().st_size` observe afterwards. -/
structure GenEnv where
  chdirResult : Except String Unit
  mainResult : Except String Unit
  outMd : Option Nat
deriving Repr

/-- The `try` body of `run_gen` (gen_bridge.py:14-26) as a state
transition on the process working directory: `os.chdir(root_path)`, then
`gen_docs.main()`, then the success dict.  An exception carries the
working directory at the point it was raised. -/
def runGenBody (rootResolved : String) (env : GenEnv) (cwd : String) :
    Except (String × String) (RunDict × String) :=
  match env.chdirResult with
  | .error e => .error (e, cwd)
  | .ok _ =>
    match env.mainResult with
    | .error e => .error (e, rootResolved)
    | .ok _ =>
      .ok (.success rootResolved (rootResolved ++ "/outputs/docs.md")
        (env.outMd.isSome) (env.outMd.getD 0), rootResolved)

/-- `try/except/finally`: run the body; on an exception produce the
handler's dict; in all cases run the `finally` transition on the working
directory last. -/
def tryExceptFinally (body : String → Except (String × String) (RunDict × String))
    (handler : String → RunDict) (fin : String → String) (cwd : String) :
    RunDict × String :=
  match body cwd with
  | .ok (d, s) => (d, fin s)
  | .error (e, s) => (handler e, fin s)

/-- `run_gen` (gen_bridge.py:6-30): capture `cwd`, then
`try: chdir; main; return success-dict / except: return failure-dict /
finally: chdir(cwd)`.  Returns the dict and the final working
directory. -/
def run_gen (cwd0 rootResolved : String) (env : GenEnv) : RunDict × String :=
  tryExceptFinally (runGenBody rootResolved env)
    (fun e => .failure e rootResolved) (fun _ => cwd0) cwd0

/-! # Helper lemmas -/

theorem fsGet_fsSet_self : ∀ (fs : FS) (p v : String), fsGet (fsSet fs p v) p = some v := by
  intro fs p v
  induction fs with
  | nil => simp [fsGet, fsSet, List.find?]
  | cons kv rest ih =>
    simp only [fsSet]
    split
    · simp [fsGet, List.find?]
    · simpa [fsGet, List.find?, *] using ih

theorem fsGet_fsSet_ne : ∀ (fs : FS) (p q v : String), q ≠ p →
    fsGet (fsSet fs p v) q = fsGet fs q := by
  intro fs p q v hne
  have hpq : (p == q) = false := beq_eq_false_iff_ne.mpr (Ne.symm hne)
  induction fs with
  | nil => simp [fsGet, fsSet, List.find?, hpq]
  | cons kv rest ih =>
    simp only [fsSet]
    split
    case isTrue h =>
      have h1 : kv.1 = p := by simpa using h
      simp [fsGet, List.find?, hpq, h1]
    case isFalse h =>
      simp only [fsGet, List.find?] at ih ⊢
      cases hq : (kv.1 == q) <;> simp [hq, ih]

theorem fsGet_fsDel_ne : ∀ (fs : FS) (p q : String), q ≠ p →
    fsGet (fsDel fs p) q = fsGet fs q := by
  intro fs p q hne
  have hpq : (p == q) = false := beq_eq_false_iff_ne.mpr (Ne.symm hne)
  induction fs with
  | nil => simp [fsDel]
  | cons kv rest ih =>
    simp only [fsDel]
    split
    case isTrue h =>
      have h1 : kv.1 = p := by simpa using h
      simp [fsGet, List.find?, h1, hpq]
    case isFalse h =>
      simp only [fsGet, List.find?] at ih ⊢
      cases hq : (kv.1 == q) <;> simp [hq, ih]

theorem self_ne_tmp (p : String) : p ≠ p ++ ".tmp" := by
  intro h
  have h2 := congrArg String.length h
  rw [String.length_append] at h2
  have h3 : String.length ".tmp" = 4 := rfl
  omega

/-! # Claim C10 -/

/-- C10: `run_gen` always restores the process working directory to its
value at entry before returning, on both the success path and the
exception path; on an exception it returns a failure dict (with the
message and the resolved root) instead of raising, and on success it
returns the success dict. -/
theorem run_gen_restores_cwd (cwd0 rootResolved : String) (env : GenEnv) :
    (run_gen cwd0 rootResolved env).2 = cwd0 ∧
    (∀ e, env.chdirResult = .error e →
      (run_gen cwd0 rootResolved env).1 = .failure e rootResolved) ∧
    (∀ e, env.chdirResult = .ok () → env.mainResult = .error e →
      (run_gen cwd0 rootResolved env).1 = .failure e rootResolved) ∧
    (env.chdirResult = .ok () → env.mainResult = .ok () →
      (run_gen cwd0 rootResolved env).1 =
        .success rootResolved (rootResolved ++ "/outputs/docs.md")
          env.outMd.isSome (env.outMd.getD 0)) := by
  obtain ⟨cr, mr, om⟩ := env
  cases cr <;> cases mr <;>
    simp [run_gen, tryExceptFinally, runGenBody]

/-- Witness for C10 at a concrete environment whose `gen_docs.main()`
raises. -/
theorem run_gen_restores_cwd_witness :
    (run_gen "/home/u" "/repo" ⟨.ok (), .error "boom", none⟩).2 = "/home/u" ∧
    (run_gen "/home/u" "/repo" ⟨.ok (), .error "boom", none⟩).1 = .failure "boom" "/repo" :=
  ⟨(run_gen_restores_cwd "/home/u" "/repo" ⟨.ok (), .error "boom", none⟩).1,
   (run_gen_restores_cwd "/home/u" "/repo" ⟨.ok (), .error "boom", none⟩).2.2.1 "boom" rfl rfl⟩

/-! # Claim C2 -/

/-- C2 counterexample: the report write of `write_markdown`
(gen_docs.py:191) is a direct truncating `Path.write_text`.  Starting from
a file system holding a previous artifact `"OLD ARTIFACT"` at
`outputs/docs.md`, a write that stops after 3 characters leaves the
target holding `"# C"`: a partially written file is observable and the
previous artifact is destroyed, refuting the claimed atomicity. -/
theorem write_markdown_not_atomic_cex :
    fsGet (write_markdown_fs [("outputs/docs.md", "OLD ARTIFACT")] "/repo"
        (fun _ => []) none [] [] "outputs/docs.md" (.crashed 3))
      "outputs/docs.md" = some "# C" ∧
    "# C" ≠ "OLD ARTIFACT" ∧
    "# C" ≠ write_markdown_render "/repo" (fun _ => []) none [] [] := by
  refine ⟨by decide, by decide, by decide⟩

/-- C2 amended: the helper `simple_fs.write_text` does follow the
materialize-then-rename discipline — at every stop point the target path
holds either the previous content or the complete new content, and after
completion it holds the new content.  `write_markdown` itself does not use
this helper: its direct write is not atomic (see the counterexample). -/
theorem write_text_atomic :
    (∀ (fs : FS) (p content : String) (step : AtomStep),
        fsGet (write_text fs p content step) p = fsGet fs p ∨
        fsGet (write_text fs p content step) p = some content) ∧
    (∀ (fs : FS) (p content : String),
        fsGet (write_text fs p content .completed) p = some content) := by
  have hdone : ∀ (fs : FS) (p content : String),
      fsGet (write_text fs p content .completed) p = some content := by
    intro fs p content
    have htmp : fsGet (fsSet fs (p ++ ".tmp") content) (p ++ ".tmp") = some content :=
      fsGet_fsSet_self _ _ _
    simp only [write_text, pathReplace, htmp]
    exact fsGet_fsSet_self _ _ _
  refine ⟨fun fs p content step => ?_, hdone⟩
  cases step with
  | completed => exact Or.inr (hdone fs p content)
  | crashedTmp k =>
    exact Or.inl (fsGet_fsSet_ne _ _ _ _ (self_ne_tmp p))
  | crashedBeforeReplace =>
    exact Or.inl (fsGet_fsSet_ne _ _ _ _ (self_ne_tmp p))

/-! # Claim C4 -/

/-- C4 counterexample.  First: with no candidate readme in the root,
`read_readme` returns `None` — not the promised string
`"no summary available."`.  Second: with a candidate that exists but
cannot be read (gen_docs.py:61 calls `f.read_text` with no guard),
the read's exception propagates out of `read_readme` — an unreadable
README *does* abort the scan, refuting the never-raises contract. -/
theorem read_readme_missing_cex :
    read_readme [] = .ok none ∧
    (Except.ok (none : Option String) : Except String (Option String)) ≠
      .ok (some "no summary available.") ∧
    read_readme [("README.md", .error "PermissionError: [Errno 13]")] =
      .error "PermissionError: [Errno 13]" :=
  ⟨rfl, by decide, rfl⟩

theorem readReadmeGo_all_missing :
    ∀ (cands : List String) (entries : List (String × Except String String)),
      (∀ n ∈ cands, dirLookup entries n = none) →
      readReadmeGo entries cands = .ok none := by
  intro cands
  induction cands with
  | nil => intro entries _; rfl
  | cons name rest ih =>
    intro entries h
    unfold readReadmeGo
    rw [h name (by simp)]
    exact ih entries fun n hn => h n (by simp [hn])

theorem readReadmeGo_ok_some :
    ∀ (cands : List String) (entries : List (String × Except String String))
      (s : String), readReadmeGo entries cands = .ok (some s) →
      ∃ n ∈ cands, ∃ txt, dirLookup entries n = some (.ok txt) ∧
        ∃ line ∈ splitLines txt, pyStrip line ≠ "" ∧
          s = stripHeading (pyStrip line) := by
  intro cands
  induction cands with
  | nil => intro entries s h; simp [readReadmeGo] at h
  | cons name rest ih =>
    intro entries s h
    unfold readReadmeGo at h
    split at h
    · obtain ⟨n, hn, hrest⟩ := ih entries s h
      exact ⟨n, by simp [hn], hrest⟩
    · exact absurd h (by simp)
    case h_3 txt hl =>
      split at h
      case h_1 s2 hfn =>
        simp only [Except.ok.injEq, Option.some.injEq] at h
        obtain ⟨line, hline, hres⟩ := List.exists_of_findSome?_eq_some hfn
        refine ⟨name, by simp, txt, hl, line, hline, ?_⟩
        by_cases hb : pyStrip line == ""
        · simp [hb] at hres
        · simp only [hb, if_neg, Bool.false_eq_true, not_false_eq_true,
            Option.some.injEq] at hres
          exact ⟨by simpa using hb, by rw [← h, ← hres]⟩
      case h_2 hfn =>
        obtain ⟨n, hn, hrest⟩ := ih entries s h
        exact ⟨n, by simp [hn], hrest⟩

theorem readReadmeGo_error :
    ∀ (cands : List String) (entries : List (String × Except String String))
      (e : String), readReadmeGo entries cands = .error e →
      ∃ n ∈ cands, dirLookup entries n = some (.error e) := by
  intro cands
  induction cands with
  | nil => intro entries e h; simp [readReadmeGo] at h
  | cons name rest ih =>
    intro entries e h
    unfold readReadmeGo at h
    split at h
    · obtain ⟨n, hn, hrest⟩ := ih entries e h
      exact ⟨n, by simp [hn], hrest⟩
    case h_2 e2 hl =>
      simp only [Except.error.injEq] at h
      exact ⟨name, by simp, by rw [hl, h]⟩
    · split at h
      · exact absurd h (by simp)
      · obtain ⟨n, hn, hrest⟩ := ih entries e h
        exact ⟨n, by simp [hn], hrest⟩

/-- C4 amended: `read_readme` searches the root non-recursively for the
candidate names in priority order.  A *missing* candidate is skipped and
never aborts: when no candidate exists the function returns `None` (the
renderer then omits the README section), never the string
`"no summary available."`.  When it returns a line, that line is the
heading-stripped first non-blank line of an existing, readable candidate
(an all-blank candidate is skipped in favour of later ones).  But the
never-raises half of the claim is false: a candidate that exists and
whose read fails — an unreadable file, or a directory bearing a
candidate name — raises, and the exception propagates uncaught out of
`read_readme` and `main`, aborting the scan; every abort stems from such
a failed read of a candidate. -/
theorem read_readme_amended :
    (∀ entries : List (String × Except String String),
      (∀ n ∈ README_FILES, dirLookup entries n = none) →
      read_readme entries = .ok none) ∧
    (∀ (entries : List (String × Except String String)) (s : String),
      read_readme entries = .ok (some s) →
      ∃ n ∈ README_FILES, ∃ txt, dirLookup entries n = some (.ok txt) ∧
        ∃ line ∈ splitLines txt, pyStrip line ≠ "" ∧
          s = stripHeading (pyStrip line)) ∧
    (∀ (entries : List (String × Except String String)) (e : String),
      read_readme entries = .error e →
      ∃ n ∈ README_FILES, dirLookup entries n = some (.error e)) :=
  ⟨fun entries h => readReadmeGo_all_missing README_FILES entries h,
   fun entries s h => readReadmeGo_ok_some README_FILES entries s h,
   fun entries e h => readReadmeGo_error README_FILES entries e h⟩

/-- Witness for C4: a root with one unrelated, readable entry yields no
summary, and a root whose `README.md` is unreadable aborts with that
read error. -/
theorem read_readme_amended_witness :
    read_readme [("notes.txt", Except.ok "hello")] = .ok none ∧
    ∃ n ∈ README_FILES,
      dirLookup [("README.md", (Except.error "IsADirectoryError" :
          Except String String))] n = some (.error "IsADirectoryError") :=
  ⟨read_readme_amended.1 [("notes.txt", Except.ok "hello")] (by decide),
   read_readme_amended.2.2
     [("README.md", Except.error "IsADirectoryError")]
     "IsADirectoryError" (by decide)⟩

/-! # Claim C7 -/

/-- C7: language classification partitions the discovered files — a file
is in the bucket of a language exactly when it was discovered and its
(case-insensitively lowered) suffix selects that language as the first
matching entry of `LANG_EXTS` (that is what `classifyFile` computes); a
file is in at most one bucket; files matching no table entry are in no
bucket. -/
theorem find_by_lang_partition (files : List FileRec) (f : FileRec) :
    (∀ lang, f ∈ find_by_lang files lang ↔
      f ∈ files ∧ classifyFile f.name = some lang) ∧
    (∀ l1 l2, f ∈ find_by_lang files l1 → f ∈ find_by_lang files l2 → l1 = l2) ∧
    (classifyFile f.name = none → ∀ lang, f ∉ find_by_lang files lang) := by
  have hm : ∀ lang, f ∈ find_by_lang files lang ↔
      f ∈ files ∧ classifyFile f.name = some lang := by
    intro lang
    unfold find_by_lang sortFiles
    rw [(List.perm_insertionSort fileLe _).mem_iff, List.mem_filter]
    simp
  refine ⟨hm, fun l1 l2 h1 h2 => ?_, fun hnone lang hmem => ?_⟩
  · have e1 := (hm l1).mp h1
    have e2 := (hm l2).mp h2
    have e3 := e1.2.symm.trans e2.2
    simpa using e3
  · have e1 := (hm lang).mp hmem
    rw [hnone] at e1
    exact absurd e1.2 (by simp)

/-- Witness for C7: a concrete `.py` file is in the Python bucket. -/
theorem find_by_lang_partition_witness :
    (⟨[], "a.py", "x"⟩ : FileRec) ∈ find_by_lang [⟨[], "a.py", "x"⟩] "Python" :=
  ((find_by_lang_partition [⟨[], "a.py", "x"⟩] ⟨[], "a.py", "x"⟩).1 "Python").mpr
    ⟨by decide, by decide⟩

/-! # Claim C6 -/

/-- Every file produced by the walk has an ancestor chain free of ignored
directory names: the walk prunes such directories before descending. -/
theorem walk_files_dirs_ok : ∀ (es : List Entry), ∀ f ∈ walk_files es,
    ∀ d ∈ f.dirs, ignoredDir d = false := by
  intro es
  induction es using walk_files.induct with
  | case1 => simp [walk_files]
  | case2 n c rest ih =>
    intro f hf d hd
    simp only [walk_files, List.mem_cons] at hf
    rcases hf with hf | hf
    · subst hf; simp at hd
    · exact ih f hf d hd
  | case3 n cs rest ih_cs ih_rest =>
    intro f hf d hd
    simp only [walk_files, List.mem_append] at hf
    rcases hf with hf | hf
    · by_cases hig : ignoredDir n
      · rw [if_pos hig] at hf; simp at hf
      · rw [if_neg hig] at hf
        obtain ⟨g, hg, hgf⟩ := List.mem_map.mp hf
        subst hgf
        simp only [List.mem_cons] at hd
        rcases hd with hd | hd
        · subst hd; simpa using hig
        · exact ih_cs g hg d hd
    · exact ih_rest f hf d hd

/-- C6: no file lying under a directory whose name is in `IGNORES`, or
under a directory whose name starts with a dot, ever appears in any
language bucket, at any depth. -/
theorem buckets_exclude_ignored_dirs (es : List Entry) (lang : String) (f : FileRec)
    (hf : f ∈ find_by_lang (walk_files es) lang) :
    ∀ d ∈ f.dirs, d ∉ IGNORES ∧ strStarts d "." = false := by
  have hwalk : f ∈ walk_files es := by
    unfold find_by_lang sortFiles at hf
    rw [(List.perm_insertionSort fileLe _).mem_iff, List.mem_filter] at hf
    exact hf.1
  intro d hd
  have h := walk_files_dirs_ok es f hwalk d hd
  unfold ignoredDir at h
  simpa using h

/-- Witness for C6: a file in a non-ignored directory is discovered, and
the theorem yields that its parent directory is not ignored. -/
theorem buckets_exclude_ignored_dirs_witness :
    ((⟨["src"], "a.py", "x"⟩ : FileRec) ∈
      find_by_lang (walk_files [.dir "src" [.file "a.py" "x"]]) "Python") ∧
    ("src" ∉ IGNORES ∧ strStarts "src" "." = false) := by
  have hw : walk_files [.dir "src" [.file "a.py" "x"]] = [⟨["src"], "a.py", "x"⟩] := by
    simp [walk_files, ignoredDir, IGNORES, strStarts, leadEq]
  refine ⟨by rw [hw]; decide, ?_⟩
  exact buckets_exclude_ignored_dirs [.dir "src" [.file "a.py" "x"]] "Python"
    ⟨["src"], "a.py", "x"⟩ (by rw [hw]; decide) "src" (by decide)

/-! # Fold and lookup helper lemmas for the edge extractors -/

theorem foldl_mem_invariant {α : Type} (f : List (String × String) → α → List (String × String))
    (Q : String × String → Prop) :
    ∀ (l : List α) (b : List (String × String)), (∀ x ∈ b, Q x) →
      (∀ a ∈ l, ∀ acc, (∀ x ∈ acc, Q x) → ∀ x ∈ f acc a, Q x) →
      ∀ x ∈ l.foldl f b, Q x := by
  intro l
  induction l with
  | nil => intro b hb _; exact hb
  | cons a as ih =>
    intro b hb hstep
    exact ih (f b a) (hstep a (by simp) b hb)
      (fun y hy acc hacc => hstep y (by simp [hy]) acc hacc)

theorem mem_setInsert {s : List (String × String)} {e x : String × String}
    (h : x ∈ setInsert s e) : x ∈ s ∨ x = e := by
  unfold setInsert at h
  split at h
  · exact Or.inl h
  · rcases List.mem_append.mp h with h | h
    · exact Or.inl h
    · exact Or.inr (by simpa using h)

theorem alistInsert_lookup {m : List (String × FileRec)} {k k2 : String}
    {v q : FileRec} (h : alistGet (alistInsert m k v) k2 = some q) :
    (k2 = k ∧ q = v) ∨ alistGet m k2 = some q := by
  induction m with
  | nil =>
    simp only [alistInsert, alistGet] at h
    split at h
    case isTrue hk =>
      exact Or.inl ⟨(beq_iff_eq.mp hk).symm, by simpa using h.symm⟩
    case isFalse hk => simp at h
  | cons kv rest ih =>
    simp only [alistInsert] at h
    split at h
    case isTrue hh =>
      have hkv : kv.1 = k := beq_iff_eq.mp hh
      simp only [alistGet] at h ⊢
      split at h
      case isTrue hk =>
        exact Or.inl ⟨(beq_iff_eq.mp hk).symm, by simpa using h.symm⟩
      case isFalse hk =>
        rw [if_neg (by simpa [hkv] using hk)]
        exact Or.inr h
    case isFalse hh =>
      simp only [alistGet] at h ⊢
      split at h
      case isTrue hk =>
        rw [if_pos hk]
        exact Or.inr h
      case isFalse hk =>
        rw [if_neg hk]
        exact ih h

theorem modulesOf_lookup {files : List FileRec} {k : String} {q : FileRec}
    (h : alistGet (modulesOf files) k = some q) :
    q ∈ files ∧ pyStem q.name = k := by
  unfold modulesOf at h
  have hgen : ∀ (l : List FileRec) (m : List (String × FileRec)),
      (∀ p ∈ l, p ∈ files) →
      (∀ k q, alistGet m k = some q → q ∈ files ∧ pyStem q.name = k) →
      ∀ k q, alistGet (l.foldl (fun m p => alistInsert m (pyStem p.name) p) m) k
        = some q → q ∈ files ∧ pyStem q.name = k := by
    intro l
    induction l with
    | nil => intro m _ hm; exact hm
    | cons p ps ih =>
      intro m hl hm
      refine ih (alistInsert m (pyStem p.name) p) (fun x hx => hl x (by simp [hx])) ?_
      intro k q hq
      rcases alistInsert_lookup hq with ⟨hk, hv⟩ | hq2
      · exact ⟨hv ▸ hl p (by simp), by rw [hv, hk]⟩
      · exact hm k q hq2
  exact hgen files [] (fun p hp => hp) (by intro k q hq; simp [alistGet] at hq) k q h

theorem ccgFileStep_edges {g : Ccg} {t : String} {g1 : Ccg}
    (h : ccgFileStep g t = .ok g1) : g1.edges = g.edges := by
  simp only [ccgFileStep] at h
  split at h
  · exact absurd h (by simp)
  · simp only [Except.ok.injEq] at h
    rw [← h]

/-- Every edge produced by `py_import_edges` goes from the slug of a
bucket file to the slug of a bucket file whose stem is the head of
an import statement found in the source file, and is not a self-edge. -/
theorem py_import_edges_sound {files : List FileRec} {e : String × String}
    (h : e ∈ py_import_edges files) :
    ∃ p, p ∈ files ∧ ∃ q, q ∈ files ∧
      e = (slug_for_mermaid p, slug_for_mermaid q) ∧
      (∃ line ∈ splitLines p.content,
        pyImportHead line = some (pyStem q.name)) ∧
      slug_for_mermaid p ≠ slug_for_mermaid q := by
  have h2 : e ∈ files.foldl (fun acc p =>
      (splitLines p.content).foldl
        (pyLineStep (modulesOf files) (slug_for_mermaid p)) acc) [] := by
    unfold py_import_edges sortEdges at h
    exact (List.perm_insertionSort edgeLe _).mem_iff.mp h
  refine foldl_mem_invariant _
    (fun x => ∃ p, p ∈ files ∧ ∃ q, q ∈ files ∧
      x = (slug_for_mermaid p, slug_for_mermaid q) ∧
      (∃ line ∈ splitLines p.content,
        pyImportHead line = some (pyStem q.name)) ∧
      slug_for_mermaid p ≠ slug_for_mermaid q)
    files [] (by simp) ?_ e h2
  intro p hp acc hacc
  refine foldl_mem_invariant _ _ (splitLines p.content) acc hacc ?_
  intro line hline acc2 hacc2 x hx
  unfold pyLineStep at hx
  split at hx
  case h_1 => exact hacc2 x hx
  case h_2 mod hhead =>
    split at hx
    case h_1 => exact hacc2 x hx
    case h_2 q hget =>
      split at hx
      case isTrue hne =>
        rcases mem_setInsert hx with hx | hx
        · exact hacc2 x hx
        · obtain ⟨hq, hstem⟩ := modulesOf_lookup hget
          exact ⟨p, hp, q, hq, hx, ⟨line, hline, by rw [hhead, hstem]⟩, hne⟩
      case isFalse hne => exact hacc2 x hx

/-- The analogue of `py_import_edges_sound` for `js_import_edges`. -/
theorem js_import_edges_sound {files : List FileRec} {e : String × String}
    (h : e ∈ js_import_edges files) :
    ∃ p, p ∈ files ∧ ∃ q, q ∈ files ∧
      e = (slug_for_mermaid p, slug_for_mermaid q) ∧
      (∃ line ∈ splitLines p.content, ∃ target,
        jsLineTarget line = some target ∧ jsTargetStem target = pyStem q.name) ∧
      slug_for_mermaid p ≠ slug_for_mermaid q := by
  have h2 : e ∈ files.foldl (fun acc p =>
      (splitLines p.content).foldl
        (jsLineStep (basenamesOf files) (slug_for_mermaid p)) acc) [] := by
    unfold js_import_edges sortEdges at h
    exact (List.perm_insertionSort edgeLe _).mem_iff.mp h
  refine foldl_mem_invariant _
    (fun x => ∃ p, p ∈ files ∧ ∃ q, q ∈ files ∧
      x = (slug_for_mermaid p, slug_for_mermaid q) ∧
      (∃ line ∈ splitLines p.content, ∃ target,
        jsLineTarget line = some target ∧ jsTargetStem target = pyStem q.name) ∧
      slug_for_mermaid p ≠ slug_for_mermaid q)
    files [] (by simp) ?_ e h2
  intro p hp acc hacc
  refine foldl_mem_invariant _ _ (splitLines p.content) acc hacc ?_
  intro line hline acc2 hacc2 x hx
  unfold jsLineStep at hx
  split at hx
  case h_1 => exact hacc2 x hx
  case h_2 target hhead =>
    split at hx
    case h_1 => exact hacc2 x hx
    case h_2 q hget =>
      split at hx
      case isTrue hne =>
        rcases mem_setInsert hx with hx | hx
        · exact hacc2 x hx
        · obtain ⟨hq, hstem⟩ := modulesOf_lookup hget
          exact ⟨p, hp, q, hq, hx, ⟨line, hline, target, hhead, hstem.symm⟩, hne⟩
      case isFalse hne => exact hacc2 x hx

/-- `build_ccg` never changes the edge set of the accumulated graph: its
call pass either raises or adds nothing. -/
theorem build_ccg_edges_invariant :
    ∀ (texts : List String) (g0 g : Ccg), build_ccg texts g0 = .ok g →
      g.edges = g0.edges := by
  intro texts
  induction texts with
  | nil =>
    intro g0 g h
    simp only [build_ccg, Except.ok.injEq] at h
    rw [← h]
  | cons t rest ih =>
    intro g0 g h
    simp only [build_ccg] at h
    rcases hstep : ccgFileStep g0 t with e | g1 <;> rw [hstep] at h
    · simp at h
    · rw [ih g1 g h, ccgFileStep_edges hstep]

/-! # Claim C1 -/

/-- C1 counterexample: on the spec's own example — a bucket with `a.py`
containing `def f(): pass` and `b.py` containing `def g():\n    f()` —
`build_ccg` produces the two function nodes but an *empty* edge set, not
the promised single `g --> f` edge.  (The call pass only pairs functions
of one file, and here each file declares a single function, so the broken
call regex is never even reached.) -/
theorem build_ccg_example_cex :
    build_ccg ["def f(): pass", "def g():\n    f()"] ccgInit =
      .ok ⟨["func::f", "func::g"], [], ⟨2, 2, 0⟩⟩ ∧
    ([] : List (String × String)) ≠ [("func::g", "func::f")] :=
  ⟨by decide, by decide⟩

/-- C1 amended: `build_ccg` discovers the two function nodes `f` and `g`,
but emits no `calls` edge at all: the call pass pairs only the functions
declared *within one file* (never across the bucket), and its search
pattern `rf'\\b{callee}\\s*\\('` — whose doubled backslashes make the
final `(` an unterminated group — raises `re.error` as soon as a single
file declares two distinct functions, so a successful run always returns
an edgeless graph, and the spec's example returns exactly the nodes
`func::f`, `func::g` with zero edges. -/
theorem build_ccg_no_edges :
    (build_ccg ["def f(): pass", "def g():\n    f()"] ccgInit =
      .ok ⟨["func::f", "func::g"], [], ⟨2, 2, 0⟩⟩) ∧
    (∀ (texts : List String) (g : Ccg), build_ccg texts ccgInit = .ok g →
      g.edges = []) ∧
    (build_ccg ["def f(): pass\ndef g():\n    f()"] ccgInit =
      .error "missing ), unterminated subpattern at position 10") :=
  ⟨by decide,
   fun texts g h => build_ccg_edges_invariant texts ccgInit g h,
   by decide⟩

/-- Witness for C1 at the spec's example bucket. -/
theorem build_ccg_no_edges_witness :
    Ccg.edges ⟨["func::f", "func::g"], [], ⟨2, 2, 0⟩⟩ = [] :=
  build_ccg_no_edges.2.1 ["def f(): pass", "def g():\n    f()"]
    ⟨["func::f", "func::g"], [], ⟨2, 2, 0⟩⟩ (by decide)

/-! # Claim C9 -/

/-- C9: no extractor ever emits a self-edge: every edge returned by
`py_import_edges` or `js_import_edges` has distinct endpoints, and a
successful `build_ccg` run returns a graph with no self-edge (its edge
set is empty). -/
theorem extractors_no_self_edges :
    (∀ (files : List FileRec) (e : String × String),
      e ∈ py_import_edges files → e.1 ≠ e.2) ∧
    (∀ (files : List FileRec) (e : String × String),
      e ∈ js_import_edges files → e.1 ≠ e.2) ∧
    (∀ (texts : List String) (g : Ccg), build_ccg texts ccgInit = .ok g →
      ∀ e ∈ g.edges, e.1 ≠ e.2) := by
  refine ⟨fun files e h => ?_, fun files e h => ?_, fun texts g h e he => ?_⟩
  · obtain ⟨p, _, q, _, hx, _, hne⟩ := py_import_edges_sound h
    rw [hx]
    exact hne
  · obtain ⟨p, _, q, _, hx, _, hne⟩ := js_import_edges_sound h
    rw [hx]
    exact hne
  · rw [build_ccg_edges_invariant texts ccgInit g h] at he
    simp [ccgInit] at he

/-- Witness for C9 on a bucket that produces one Python import edge. -/
theorem extractors_no_self_edges_witness :
    ("a_py" : String) ≠ "b_py" :=
  extractors_no_self_edges.1 [⟨[], "a.py", "import b"⟩, ⟨[], "b.py", ""⟩]
    ("a_py", "b_py") (by decide)

/-! # Claim C8 -/

/-- C8: every emitted import edge has both endpoints inside the same
bucket: the source is the slug of a bucket file, and the destination is
the slug of a bucket file whose extension-stripped base name exactly
matches the (relative-path-stripped) import target found on some line of
the source file — so edges to files not discovered in the bucket are
never created. -/
theorem import_edges_endpoints_in_bucket :
    (∀ (files : List FileRec) (e : String × String), e ∈ py_import_edges files →
      ∃ p, p ∈ files ∧ ∃ q, q ∈ files ∧
        e = (slug_for_mermaid p, slug_for_mermaid q) ∧
        ∃ line ∈ splitLines p.content,
          pyImportHead line = some (pyStem q.name)) ∧
    (∀ (files : List FileRec) (e : String × String), e ∈ js_import_edges files →
      ∃ p, p ∈ files ∧ ∃ q, q ∈ files ∧
        e = (slug_for_mermaid p, slug_for_mermaid q) ∧
        ∃ line ∈ splitLines p.content, ∃ target,
          jsLineTarget line = some target ∧
          jsTargetStem target = pyStem q.name) := by
  refine ⟨fun files e h => ?_, fun files e h => ?_⟩
  · obtain ⟨p, hp, q, hq, hx, hprov, _⟩ := py_import_edges_sound h
    exact ⟨p, hp, q, hq, hx, hprov⟩
  · obtain ⟨p, hp, q, hq, hx, hprov, _⟩ := js_import_edges_sound h
    exact ⟨p, hp, q, hq, hx, hprov⟩

/-- Witness for C8 on a bucket that produces one JS import edge. -/
theorem import_edges_endpoints_in_bucket_witness :
    ∃ p, p ∈ [(⟨[], "a.js", "const X = require(\"./b\")"⟩ : FileRec),
        ⟨[], "b.js", ""⟩] ∧
      ∃ q, q ∈ [(⟨[], "a.js", "const X = require(\"./b\")"⟩ : FileRec),
          ⟨[], "b.js", ""⟩] ∧
        (("a_js", "b_js") : String × String) =
          (slug_for_mermaid p, slug_for_mermaid q) ∧
        ∃ line ∈ splitLines p.content,
          ∃ target, jsLineTarget line = some target ∧
            jsTargetStem target = pyStem q.name :=
  import_edges_endpoints_in_bucket.2
    [⟨[], "a.js", "const X = require(\"./b\")"⟩, ⟨[], "b.js", ""⟩]
    ("a_js", "b_js") (by decide)

/-! # Helper lemmas for the rendered report -/

theorem ne_of_headChar {s t : String} {c d : Char}
    (hs : s.data.head? = some c) (ht : t.data.head? = some d) (hcd : c ≠ d) :
    s ≠ t := by
  intro he
  rw [he, ht] at hs
  exact hcd (Option.some.inj hs).symm

theorem joinNL_cons_data (a : String) (l : List String) :
    ∃ t, (joinNL (a :: l)).data = a.data ++ t := by
  cases l with
  | nil => exact ⟨[], by simp [joinNL]⟩
  | cons b bs =>
    refine ⟨("\n" ++ joinNL (b :: bs)).data, ?_⟩
    show ((a ++ "\n") ++ joinNL (b :: bs)).data = _
    rw [String.data_append, String.data_append, String.data_append,
      List.append_assoc]

theorem joinNL_cons_head (a : String) (l : List String) {c : Char}
    (h : a.data.head? = some c) : (joinNL (a :: l)).data.head? = some c := by
  obtain ⟨t, ht⟩ := joinNL_cons_data a l
  rw [ht]
  cases hd : a.data with
  | nil => rw [hd] at h; exact absurd h (by simp)
  | cons x xs =>
    rw [hd] at h
    simpa using h

theorem mermaid_graph_head (e : List (String × String)) (t : String) :
    (mermaid_graph e t).data.head? = some '`' := by
  unfold mermaid_graph
  split
  · rw [String.data_append, String.data_append]
    rfl
  · exact joinNL_cons_head "```mermaid" _ rfl

/-- All possible shapes of a line of the rendered report. -/
theorem mem_write_markdown_lines {s root : String} {buckets : String → List FileRec}
    {rm : Option String} {pyE jsE : List (String × String)}
    (h : s ∈ write_markdown_lines root buckets rm pyE jsE) :
    s = "# Codebase Genius — Docs\n" ∨
    s = "Scanned root: `" ++ root ++ "`\n" ∨
    s = "## Summary\n" ∨
    (∃ lang ∈ langNames, s = "- " ++ lang ++ ": " ++ toString (buckets lang).length) ∨
    s = "" ∨
    s = "## README summary (first non-empty line)\n" ∨
    (∃ r, rm = some r ∧ s = "> " ++ r ++ "\n") ∨
    (pyE ≠ [] ∧ (s = "## Python import graph (Mermaid)\n" ∨
      s = mermaid_graph pyE "Python")) ∨
    (jsE ≠ [] ∧ (s = "## JS/TS import graph (Mermaid)\n" ∨
      s = mermaid_graph jsE "JS/TS")) ∨
    (∃ lang ∈ langNames, s = "## " ++ lang ++ " files") ∨
    s = "_None_" ∨
    (∃ p, s = "- `" ++ relPathStr p ++ "`") := by
  unfold write_markdown_lines at h
  simp only [List.append_assoc, List.mem_append, List.mem_cons, List.mem_map,
    List.mem_flatMap, List.mem_singleton, List.not_mem_nil, false_or, or_false] at h
  rcases h with (h | h | h) | ⟨lang, hlang, hs⟩ | h | h | h | h |
    ⟨lang, hlang, hs | hs | hs⟩
  · exact Or.inl h
  · exact Or.inr (Or.inl h)
  · exact Or.inr (Or.inr (Or.inl h))
  · exact Or.inr (Or.inr (Or.inr (Or.inl ⟨lang, hlang, hs.symm⟩)))
  · exact Or.inr (Or.inr (Or.inr (Or.inr (Or.inl h))))
  · -- readme chunk
    rcases rm with _ | r
    · simp at h
    · simp only [List.mem_cons, List.mem_singleton, List.not_mem_nil,
        or_false] at h
      rcases h with h | h
      · exact Or.inr (Or.inr (Or.inr (Or.inr (Or.inr (Or.inl h)))))
      · exact Or.inr (Or.inr (Or.inr (Or.inr (Or.inr (Or.inr
          (Or.inl ⟨r, rfl, h⟩))))))
  · -- python diagram chunk
    by_cases hpy : pyE = []
    · rw [if_pos hpy] at h; simp at h
    · rw [if_neg hpy] at h
      simp only [List.mem_cons, List.not_mem_nil, or_false] at h
      exact Or.inr (Or.inr (Or.inr (Or.inr (Or.inr (Or.inr (Or.inr
        (Or.inl ⟨hpy, h⟩)))))))
  · -- js diagram chunk
    by_cases hjs : jsE = []
    · rw [if_pos hjs] at h; simp at h
    · rw [if_neg hjs] at h
      simp only [List.mem_cons, List.not_mem_nil, or_false] at h
      exact Or.inr (Or.inr (Or.inr (Or.inr (Or.inr (Or.inr (Or.inr (Or.inr
        (Or.inl ⟨hjs, h⟩))))))))
  · exact Or.inr (Or.inr (Or.inr (Or.inr (Or.inr (Or.inr (Or.inr (Or.inr
      (Or.inr (Or.inl ⟨lang, hlang, hs⟩)))))))))
  · -- file listing body
    by_cases hb : buckets lang = []
    · rw [if_pos hb] at hs
      simp only [List.mem_singleton] at hs
      exact Or.inr (Or.inr (Or.inr (Or.inr (Or.inr (Or.inr (Or.inr (Or.inr
        (Or.inr (Or.inr (Or.inl hs))))))))))
    · rw [if_neg hb] at hs
      obtain ⟨p, _, hp⟩ := List.mem_map.mp hs
      exact Or.inr (Or.inr (Or.inr (Or.inr (Or.inr (Or.inr (Or.inr (Or.inr
        (Or.inr (Or.inr (Or.inr ⟨p, hp.symm⟩))))))))))
  · exact Or.inr (Or.inr (Or.inr (Or.inr (Or.inl hs))))

/-! # Claim C3 -/

set_option maxRecDepth 8192 in
/-- C3 counterexample: rendering a scan with zero edges (for example a
root with no source files) yields an artifact with *no* Python diagram
section at all — neither the section header nor the
`%% No edges detected` placeholder of `mermaid_graph` appears; the
placeholder phrase does not occur anywhere in the artifact. -/
theorem diagram_placeholder_missing_cex :
    ("## Python import graph (Mermaid)\n" ∉
      write_markdown_lines "/repo" (fun _ => []) none [] []) ∧
    (mermaid_graph [] "Python" ∉
      write_markdown_lines "/repo" (fun _ => []) none [] []) ∧
    strContainsSub (write_markdown_render "/repo" (fun _ => []) none [] [])
      "No edges detected" = false :=
  ⟨by decide, by decide, by decide⟩

/-- C3 amended: a diagram section (header plus fenced block) appears in
the artifact exactly for the language families that produced at least one
edge; when a family produced zero edges its diagram section is omitted
entirely (the `no edges detected` placeholder of `mermaid_graph` is dead
code on this path).  The per-language file-listing sections are always
present — for a root with zero source files every language section is
still rendered and marked `_None_` — and rendering is total, so the
operation succeeds. -/
theorem write_markdown_sections (root : String) (buckets : String → List FileRec)
    (rm : Option String) (pyE jsE : List (String × String)) :
    (pyE = [] → "## Python import graph (Mermaid)\n" ∉
      write_markdown_lines root buckets rm pyE jsE) ∧
    (pyE ≠ [] → "## Python import graph (Mermaid)\n" ∈
        write_markdown_lines root buckets rm pyE jsE ∧
      mermaid_graph pyE "Python" ∈ write_markdown_lines root buckets rm pyE jsE) ∧
    (jsE = [] → "## JS/TS import graph (Mermaid)\n" ∉
      write_markdown_lines root buckets rm pyE jsE) ∧
    (jsE ≠ [] → "## JS/TS import graph (Mermaid)\n" ∈
        write_markdown_lines root buckets rm pyE jsE ∧
      mermaid_graph jsE "JS/TS" ∈ write_markdown_lines root buckets rm pyE jsE) ∧
    (∀ lang ∈ langNames, ("## " ++ lang ++ " files") ∈
      write_markdown_lines root buckets rm pyE jsE) ∧
    (∀ lang ∈ langNames, buckets lang = [] → "_None_" ∈
      write_markdown_lines root buckets rm pyE jsE) := by
  have hscanned : ("Scanned root: `" ++ root ++ "`\n").data.head? = some 'S' := by
    rw [String.data_append, String.data_append]
    rfl
  have hbullet : ∀ a b c : String, ("- " ++ a ++ b ++ c).data.head? = some '-' := by
    intro a b c
    rw [String.data_append, String.data_append, String.data_append]
    rfl
  have hquote : ∀ r : String, ("> " ++ r ++ "\n").data.head? = some '>' := by
    intro r
    rw [String.data_append, String.data_append]
    rfl
  have hfile : ∀ p : FileRec, ("- `" ++ relPathStr p ++ "`").data.head? = some '-' := by
    intro p
    rw [String.data_append, String.data_append]
    rfl
  have hlangcases : ∀ lang ∈ langNames, lang = "Python" ∨
      lang = "JavaScript/TypeScript" ∨ lang = "Java" ∨ lang = "Go" ∨
      lang = "Rust" ∨ lang = "C/C++" := by
    intro lang hlang
    simpa [langNames, LANG_EXTS] using hlang
  -- the two negative parts
  have hnotinP : pyE = [] → "## Python import graph (Mermaid)\n" ∉
      write_markdown_lines root buckets rm pyE jsE := by
    intro hpy hmem
    have hd : ("## Python import graph (Mermaid)\n").data.head? = some '#' := rfl
    rcases mem_write_markdown_lines hmem with
      h | h | h | ⟨lang, _, h⟩ | h | h | ⟨r, _, h⟩ | ⟨hne, _⟩ |
      ⟨_, h | h⟩ | ⟨lang, hlang, h⟩ | h | ⟨p, h⟩
    · exact absurd h (by decide)
    · exact absurd h (ne_of_headChar hd hscanned (by decide))
    · exact absurd h (by decide)
    · exact absurd h (ne_of_headChar hd
        (hbullet lang ": " (toString (buckets lang).length)) (by decide))
    · exact absurd h (by decide)
    · exact absurd h (by decide)
    · exact absurd h (ne_of_headChar hd (hquote r) (by decide))
    · exact hne hpy
    · exact absurd h (by decide)
    · exact absurd h (ne_of_headChar hd (mermaid_graph_head jsE "JS/TS") (by decide))
    · rcases hlangcases lang hlang with rfl | rfl | rfl | rfl | rfl | rfl <;>
        exact absurd h (by decide)
    · exact absurd h (by decide)
    · exact absurd h (ne_of_headChar hd (hfile p) (by decide))
  have hnotinJ : jsE = [] → "## JS/TS import graph (Mermaid)\n" ∉
      write_markdown_lines root buckets rm pyE jsE := by
    intro hjs hmem
    have hd : ("## JS/TS import graph (Mermaid)\n").data.head? = some '#' := rfl
    rcases mem_write_markdown_lines hmem with
      h | h | h | ⟨lang, _, h⟩ | h | h | ⟨r, _, h⟩ | ⟨_, h | h⟩ |
      ⟨hne, _⟩ | ⟨lang, hlang, h⟩ | h | ⟨p, h⟩
    · exact absurd h (by decide)
    · exact absurd h (ne_of_headChar hd hscanned (by decide))
    · exact absurd h (by decide)
    · exact absurd h (ne_of_headChar hd
        (hbullet lang ": " (toString (buckets lang).length)) (by decide))
    · exact absurd h (by decide)
    · exact absurd h (by decide)
    · exact absurd h (ne_of_headChar hd (hquote r) (by decide))
    · exact absurd h (by decide)
    · exact absurd h (ne_of_headChar hd (mermaid_graph_head pyE "Python") (by decide))
    · exact hne hjs
    · rcases hlangcases lang hlang with rfl | rfl | rfl | rfl | rfl | rfl <;>
        exact absurd h (by decide)
    · exact absurd h (by decide)
    · exact absurd h (ne_of_headChar hd (hfile p) (by decide))
  refine ⟨hnotinP, ?_, hnotinJ, ?_, ?_, ?_⟩
  · intro hne
    constructor <;> simp [write_markdown_lines, hne]
  · intro hne
    constructor <;> simp [write_markdown_lines, hne]
  · intro lang hlang
    have hin : ("## " ++ lang ++ " files") ∈ langNames.flatMap (fun lang =>
        ["## " ++ lang ++ " files"] ++
        (if buckets lang = [] then ["_None_"]
         else (buckets lang).map fun p => "- `" ++ relPathStr p ++ "`") ++
        [""]) :=
      List.mem_flatMap.mpr ⟨lang, hlang, by simp⟩
    unfold write_markdown_lines
    exact List.mem_append_right _ hin
  · intro lang hlang hb
    have hin : ("_None_" : String) ∈ langNames.flatMap (fun lang =>
        ["## " ++ lang ++ " files"] ++
        (if buckets lang = [] then ["_None_"]
         else (buckets lang).map fun p => "- `" ++ relPathStr p ++ "`") ++
        [""]) :=
      List.mem_flatMap.mpr ⟨lang, hlang, by simp [hb]⟩
    unfold write_markdown_lines
    exact List.mem_append_right _ hin

/-- Witness for C3: one Python edge and no JS edge at an empty bucket
map — the Python diagram section is present, the JS one absent, and the
Python files section is present and marked empty. -/
theorem write_markdown_sections_witness :
    ("## Python import graph (Mermaid)\n" ∈
      write_markdown_lines "/r" (fun _ => []) none [("a", "b")] []) ∧
    ("## JS/TS import graph (Mermaid)\n" ∉
      write_markdown_lines "/r" (fun _ => []) none [("a", "b")] []) ∧
    (("## " ++ "Python" ++ " files") ∈
      write_markdown_lines "/r" (fun _ => []) none [("a", "b")] []) ∧
    ("_None_" ∈ write_markdown_lines "/r" (fun _ => []) none [("a", "b")] []) :=
  ⟨((write_markdown_sections "/r" (fun _ => []) none [("a", "b")] []).2.1
      (by decide)).1,
   (write_markdown_sections "/r" (fun _ => []) none [("a", "b")] []).2.2.1 rfl,
   (write_markdown_sections "/r" (fun _ => []) none [("a", "b")] []).2.2.2.2.1
      "Python" (by decide),
   (write_markdown_sections "/r" (fun _ => []) none [("a", "b")] []).2.2.2.2.2
      "Python" (by decide) rfl⟩

/-! # Helper lemmas for determinism -/

theorem sortFiles_eq_of_perm {l m : List FileRec} (hp : l.Perm m)
    (hnd : (l.map pathKey).Nodup) : sortFiles l = sortFiles m := by
  have hperm : (sortFiles l).Perm (sortFiles m) :=
    (List.perm_insertionSort fileLe l).trans
      (hp.trans (List.perm_insertionSort fileLe m).symm)
  have hs1 : List.Sorted fileLe (sortFiles l) := List.sorted_insertionSort fileLe l
  have hs2 : List.Sorted fileLe (sortFiles m) := List.sorted_insertionSort fileLe m
  have hnd1 : ((sortFiles l).map pathKey).Nodup :=
    ((List.perm_insertionSort fileLe l).map pathKey).nodup_iff.mpr hnd
  have hnd2 : ((sortFiles m).map pathKey).Nodup :=
    ((List.perm_insertionSort fileLe m).map pathKey).nodup_iff.mpr
      ((hp.map pathKey).nodup_iff.mp hnd)
  have hstrict : ∀ (x : List FileRec), List.Sorted fileLe x →
      (x.map pathKey).Nodup →
      List.Sorted (fun a b => pathKey a < pathKey b) x := by
    intro x hs hn
    have hpw : x.Pairwise fun a b => pathKey a ≠ pathKey b := by
      rw [List.Nodup, List.pairwise_map] at hn
      exact hn
    exact (List.Pairwise.and hs hpw).imp fun h => lt_of_le_of_ne h.1 h.2
  haveI : IsAntisymm FileRec (fun a b => pathKey a < pathKey b) :=
    ⟨fun a b h1 h2 => absurd (h1.trans h2) (lt_irrefl _)⟩
  exact List.eq_of_perm_of_sorted hperm (hstrict _ hs1 hnd1) (hstrict _ hs2 hnd2)

theorem find_by_lang_eq_of_perm {l1 l2 : List FileRec} (hp : l1.Perm l2)
    (hnd : (l1.map pathKey).Nodup) : find_by_lang l1 = find_by_lang l2 := by
  funext lang
  unfold find_by_lang
  refine sortFiles_eq_of_perm (hp.filter _) ?_
  exact hnd.sublist ((List.filter_sublist _).map pathKey)

/-! # Claim C5 -/

/-- C5: the pipeline is deterministic.  First, the artifact does not
depend on the order in which the walker enumerates the files: two
listings of the same file set (permutations of each other; paths are
unique in a file system, whence the `Nodup` key hypothesis) produce
byte-identical artifacts — all downstream stages work from the sorted
buckets.  Second, the scanned-root path only influences line 1 of the
report: at every other index the rendered lines agree for any two roots,
so two runs on identical input differ at most in the scanned-root
field. -/
theorem pipeline_deterministic :
    (∀ (root : String) (rootEntries : List (String × String))
        (l1 l2 : List FileRec), l1.Perm l2 → (l1.map pathKey).Nodup →
      gen_artifact root l1 rootEntries = gen_artifact root l2 rootEntries) ∧
    (∀ (r1 r2 : String) (buckets : String → List FileRec) (rm : Option String)
        (pyE jsE : List (String × String)) (i : Nat), i ≠ 1 →
      (write_markdown_lines r1 buckets rm pyE jsE)[i]? =
      (write_markdown_lines r2 buckets rm pyE jsE)[i]?) := by
  constructor
  · intro root re l1 l2 hp hnd
    unfold gen_artifact
    rw [find_by_lang_eq_of_perm hp hnd]
  · intro r1 r2 buckets rm pyE jsE i hi
    rcases i with _ | i
    · rfl
    rcases i with _ | i
    · exact absurd rfl hi
    · simp only [write_markdown_lines, List.cons_append,
        List.getElem?_cons_succ]

/-- Witness for C5: two enumeration orders of the same two-file set give
the same artifact, and index 0 of the lines agrees across two roots. -/
theorem pipeline_deterministic_witness :
    (gen_artifact "/r" [⟨[], "b.py", ""⟩, ⟨[], "a.py", "import b"⟩] [] =
      gen_artifact "/r" [⟨[], "a.py", "import b"⟩, ⟨[], "b.py", ""⟩] []) ∧
    ((write_markdown_lines "/r1" (fun _ => []) none [] [])[0]? =
      (write_markdown_lines "/r2" (fun _ => []) none [] [])[0]?) :=
  ⟨pipeline_deterministic.1 "/r" []
      [⟨[], "b.py", ""⟩, ⟨[], "a.py", "import b"⟩]
      [⟨[], "a.py", "import b"⟩, ⟨[], "b.py", ""⟩] (by decide) (by decide),
   pipeline_deterministic.2 "/r1" "/r2" (fun _ => []) none [] [] 0 (by decide)⟩

end CodebaseGenius
